import Mathlib

/-!
Shallow embedding of the genre-classification core of
`src/spotify_genre_playlister.py`, together with proofs about the claims
of its specification.  Python strings are modelled as Lean `String`
(operating on their `List Char` data); Python floats (all weights are
small decimal constants) are modelled as `ℚ`; Python dicts/Counters are
modelled as insertion-ordered association lists; network calls are
modelled as oracle functions supplied as parameters.
-/

set_option maxRecDepth 4000

namespace SpotifyGenre

/-! ### Python-style character and string primitives -/

/-- Python `str.strip()` / `\s` whitespace set (ASCII fragment). -/
def pyIsSpace (c : Char) : Bool :=
  c = ' ' || c = '\t' || c = '\n' || c = '\x0d' || c = '\x0b' || c = '\x0c'

/-- Python `str.strip()`: drop whitespace from both ends. -/
def pyStrip (l : List Char) : List Char :=
  ((l.dropWhile pyIsSpace).reverse.dropWhile pyIsSpace).reverse

/-- The characters replaced by a space in `norm` (regex `[/_]`). -/
def isSlashU (c : Char) : Bool := c = '/' || c = '_'

/-- Embeds `re.sub(r"[/_]", " ", s)`: character-wise replacement. -/
def replaceSl (l : List Char) : List Char :=
  l.map (fun c => if isSlashU c then ' ' else c)

/-- Embeds `re.sub(r"\s+", " ", s)`: collapse every whitespace run to a single
space.  The boolean flag records whether the previous character was part
of a whitespace run. -/
def collapseAux : Bool → List Char → List Char
  | _, [] => []
  | prev, c :: rest =>
    if pyIsSpace c then
      if prev then collapseAux true rest else ' ' :: collapseAux true rest
    else c :: collapseAux false rest

/-- Python `str.lower()` (ASCII fragment). -/
def lowerL (l : List Char) : List Char := l.map Char.toLower

/-- Embeds `norm(s)`: strip, lowercase, turn `/`/`_` into spaces, collapse
whitespace runs (source lines 164-168). -/
def norm (s : String) : String :=
  ⟨collapseAux false (replaceSl (lowerL (pyStrip s.data)))⟩

/-- Association-list lookup (first match), modelling Python `dict.get`. -/
def alookup {α : Type} : List (String × α) → String → Option α
  | [], _ => none
  | (k, v) :: rest, key => if k = key then some v else alookup rest key

/-- The synonym table inside `normalize_genre` (source lines 172-186). -/
def replacements : List (String × String) :=
  [("hip hop", "hip-hop"),
   ("r&b", "rnb"),
   ("alt rock", "alternative rock"),
   ("alt-rock", "alternative rock"),
   ("synth pop", "synthpop"),
   ("indie pop", "indie-pop"),
   ("indie rock", "indie-rock"),
   ("electro pop", "electropop"),
   ("drum and bass", "drum & bass"),
   ("dnb", "drum & bass"),
   ("edm", "electronic"),
   ("emo pop", "emo-pop"),
   ("pop punk", "pop-punk")]

/-- Embeds `normalize_genre(g)` (source lines 170-187). -/
def normalize_genre (g : String) : String :=
  let g := norm g
  (alookup replacements g).getD g

/-! ### Static tables (source lines 42-162) -/

/-- Embeds `ARTIST_WEIGHTS` (source line 43). -/
def ARTIST_WEIGHTS : List (String × ℚ) := [("primary", 1), ("featured", 1/2)]

/-- Embeds `WEIGHTS_SOURCE` (source lines 46-52). -/
def WEIGHTS_SOURCE : List (String × ℚ) :=
  [("spotify_artist", 1), ("alias", 9/10), ("spotify_related", 3/5),
   ("musicbrainz", 1/2), ("name_signal", 4/5)]

/-- Embeds `CACHE_TTL` = 14 days in seconds (source line 55). -/
def CACHE_TTL : ℚ := 60 * 60 * 24 * 14

/-- Embeds `ALIAS_GENRES` (source lines 58-74). -/
def ALIAS_GENRES : List (String × List String) :=
  [("Macklemore", ["hip-hop", "rap"]),
   ("Macklemore & Ryan Lewis", ["hip-hop", "rap"]),
   ("The Piano Guys", ["classical", "pop"]),
   ("Hans Zimmer", ["soundtrack"]),
   ("Ramin Djawadi", ["soundtrack"]),
   ("Lorne Balfe", ["soundtrack"]),
   ("Andrea Bocelli", ["classical", "opera"]),
   ("Yiruma", ["classical"]),
   ("Imagine Dragons", ["alternative rock", "pop"]),
   ("Sia", ["electronic", "pop"]),
   ("Blackbear", ["hip-hop", "pop"]),
   ("Lewis Capaldi", ["pop"]),
   ("Huey Lewis & The News", ["rock", "pop"]),
   ("OK Go", ["alternative rock", "pop"]),
   ("Snow Patrol", ["alternative rock", "rock"])]

/-- Embeds `CANON_TO_BUCKET` (source lines 77-131). -/
def CANON_TO_BUCKET : List (String × String) :=
  [("rock", "rock"), ("classic rock", "rock"), ("hard rock", "rock"), ("soft rock", "rock"), ("arena rock", "rock"),
   ("alternative rock", "rock"), ("alt rock", "rock"), ("alt-rock", "rock"), ("modern rock", "rock"),
   ("indie rock", "rock"), ("indie-rock", "rock"), ("garage rock", "rock"), ("psychedelic rock", "rock"),
   ("progressive rock", "rock"), ("prog rock", "rock"), ("art rock", "rock"), ("glam rock", "rock"),
   ("punk", "rock"), ("pop punk", "rock"), ("pop-punk", "rock"), ("skate punk", "rock"), ("hardcore punk", "rock"),
   ("post-punk", "rock"), ("punk rock", "rock"), ("street punk", "rock"),
   ("emo", "rock"), ("emo-pop", "rock"), ("screamo", "rock"), ("post-hardcore", "rock"),
   ("metal", "rock"), ("heavy metal", "rock"), ("metalcore", "rock"), ("deathcore", "rock"), ("death metal", "rock"),
   ("black metal", "rock"), ("thrash metal", "rock"), ("prog metal", "rock"), ("nu metal", "rock"),
   ("power metal", "rock"), ("speed metal", "rock"), ("doom metal", "rock"), ("sludge metal", "rock"),
   ("grunge", "rock"), ("post-grunge", "rock"), ("noise rock", "rock"), ("shoegaze", "rock"),
   ("ska punk", "rock"), ("folk punk", "rock"), ("celtic punk", "rock"),
   ("country", "country"), ("classic country", "country"), ("modern country", "country"), ("country pop", "country"),
   ("alt-country", "country"), ("alternative country", "country"), ("americana", "country"), ("outlaw country", "country"),
   ("texas country", "country"), ("red dirt", "country"), ("bluegrass", "country"), ("honky tonk", "country"),
   ("country rock", "country"), ("southern rock", "country"), ("folk", "country"), ("indie folk", "country"),
   ("singer-songwriter", "country"), ("roots rock", "country"), ("cowboy", "country"), ("nashville sound", "country"),
   ("hip-hop", "hip-hop"), ("hip hop", "hip-hop"), ("rap", "hip-hop"), ("gangsta rap", "hip-hop"),
   ("east coast hip hop", "hip-hop"), ("west coast hip hop", "hip-hop"), ("southern hip hop", "hip-hop"),
   ("trap", "hip-hop"), ("mumble rap", "hip-hop"), ("conscious hip hop", "hip-hop"), ("alternative hip hop", "hip-hop"),
   ("old school hip hop", "hip-hop"), ("boom bap", "hip-hop"), ("g-funk", "hip-hop"), ("crunk", "hip-hop"),
   ("emo rap", "hip-hop"), ("cloud rap", "hip-hop"), ("drill", "hip-hop"), ("uk drill", "hip-hop"),
   ("classical", "classical"), ("neoclassical", "classical"), ("contemporary classical", "classical"),
   ("orchestral", "classical"), ("symphony", "classical"), ("chamber music", "classical"), ("opera", "classical"),
   ("classical piano", "classical"), ("piano", "classical"), ("solo piano", "classical"), ("instrumental", "classical"),
   ("baroque", "classical"), ("romantic era", "classical"), ("modern classical", "classical"),
   ("film score", "classical"), ("cinematic", "classical"), ("ambient classical", "classical"),
   ("soundtrack", "musical"), ("score", "musical"), ("ost", "musical"), ("original soundtrack", "musical"),
   ("musicals", "musical"), ("broadway", "musical"), ("show tunes", "musical"), ("theatre", "musical"),
   ("film soundtrack", "musical"), ("movie soundtrack", "musical"), ("tv soundtrack", "musical"),
   ("video game music", "musical"), ("anime soundtrack", "musical"),
   ("electronic", "electronic"), ("edm", "electronic"), ("dance", "electronic"), ("electro", "electronic"),
   ("house", "electronic"), ("deep house", "electronic"), ("tech house", "electronic"), ("progressive house", "electronic"),
   ("techno", "electronic"), ("trance", "electronic"), ("progressive trance", "electronic"), ("uplifting trance", "electronic"),
   ("dubstep", "electronic"), ("drum and bass", "electronic"), ("drum & bass", "electronic"), ("dnb", "electronic"),
   ("breakbeat", "electronic"), ("jungle", "electronic"), ("garage", "electronic"), ("uk garage", "electronic"),
   ("ambient", "electronic"), ("downtempo", "electronic"), ("chillout", "electronic"), ("trip hop", "electronic"),
   ("synthwave", "electronic"), ("synthpop", "electronic"), ("electropop", "electronic"), ("electronica", "electronic"),
   ("industrial", "electronic"), ("ebm", "electronic"), ("darkwave", "electronic"), ("new wave", "electronic"),
   ("disco", "electronic"), ("funk", "electronic"), ("future funk", "electronic"), ("vaporwave", "electronic"),
   ("hardstyle", "electronic"), ("hardcore", "electronic"), ("gabber", "electronic"), ("big beat", "electronic"),
   ("future bass", "electronic"), ("melodic bass", "electronic"), ("bedroom pop", "electronic"), ("indie-pop", "electronic")]

/-- Embeds `DEFAULT_BUCKET_RULES` (source lines 133-157). -/
def DEFAULT_BUCKET_RULES : List (String × List String) :=
  [("pop-punk", ["pop punk", "pop-punk"]),
   ("punk", ["punk", "skate punk", "hardcore punk"]),
   ("emo", ["emo", "emo-pop", "emo rap"]),
   ("ska", ["ska", "2 tone", "two-tone", "third wave ska", "ska punk"]),
   ("alternative rock", ["alternative rock", "alt rock", "alt-rock", "modern rock"]),
   ("indie-rock", ["indie rock", "indie-rock"]),
   ("indie-pop", ["indie pop", "indie-pop"]),
   ("metal", ["metal", "metalcore", "deathcore", "death metal", "nu metal", "thrash metal", "black metal", "prog metal"]),
   ("hard rock", ["hard rock", "arena rock"]),
   ("rock", ["rock", "classic rock", "soft rock", "glam rock", "roots rock"]),
   ("electronic", ["electronic", "edm", "house", "techno", "trance", "dubstep", "electro", "synthwave", "synthpop"]),
   ("hip-hop", ["hip hop", "hip-hop", "rap"]),
   ("rnb", ["r&b", "rnb", "neo soul"]),
   ("country", ["country", "alt-country"]),
   ("folk", ["folk", "americana", "singer-songwriter"]),
   ("reggae", ["reggae", "ska reggae", "dub reggae", "dancehall"]),
   ("latin", ["latin", "reggaeton", "banda", "mariachi", "salsa", "cumbia", "bachata"]),
   ("jazz", ["jazz", "smooth jazz", "bebop", "fusion"]),
   ("blues", ["blues"]),
   ("christian", ["christian", "worship", "ccm"]),
   ("soundtrack", ["soundtrack", "score", "ost"]),
   ("classical", ["classical", "baroque", "romantic era", "orchestral", "piano"]),
   ("comedy", ["comedy"])]

/-- Embeds `GENERIC_TAGS` (source lines 159-162). -/
def GENERIC_TAGS : List String :=
  ["seen live", "favorite", "favorites", "best", "awesome", "good", "great",
   "all", "american", "british", "canadian", "uk", "usa", "united states"]

/-! ### Counters (Python `collections.Counter`, insertion-ordered) -/

/-- A Python `Counter` with `ℚ` values: insertion-ordered association
list; `c[k] += w` updates in place or appends a fresh key at the end. -/
def Counter := List (String × ℚ)

/-- Embeds `c[k] += w` on a `Counter`. -/
def cAdd : List (String × ℚ) → String → ℚ → List (String × ℚ)
  | [], k, w => [(k, w)]
  | (k', w') :: rest, k, w =>
    if k' = k then (k', w' + w) :: rest else (k', w') :: cAdd rest k w

/-- The value stored at key `k` (`0` when the key is absent). -/
def cVal (c : List (String × ℚ)) (k : String) : ℚ := ((alookup c k).getD 0)

/-- Sum of all stored values. -/
def cSum (c : List (String × ℚ)) : ℚ := (c.map Prod.snd).sum

/-! ### Stable sorting (Python `sorted`) -/

/-- Stable insertion sort: `prec a b` means `a` strictly precedes `b` in
the sort order; elements comparing equal keep their original order, like
Python's `sorted`. -/
def insBy {α : Type} (prec : α → α → Bool) (x : α) : List α → List α
  | [] => [x]
  | y :: ys => if prec y x then y :: insBy prec x ys else x :: y :: ys

/-- Stable sort by the strict-precedence test `prec`. -/
def sortBy {α : Type} (prec : α → α → Bool) (l : List α) : List α :=
  l.foldr (insBy prec) []

/-- Python string `<` : lexicographic comparison by code point. -/
def strLtL : List Char → List Char → Bool
  | [], [] => false
  | [], _ :: _ => true
  | _ :: _, [] => false
  | a :: as, b :: bs => if a < b then true else if b < a then false else strLtL as bs

/-- Embeds `sorted(scores.items(), key=lambda kv: (-kv[1], kv[0]))` — descending
score, ascending tag string (source lines 375 and 1217). -/
def sortScores (c : List (String × ℚ)) : List (String × ℚ) :=
  sortBy (fun a b => (b.2 < a.2) || (a.2 = b.2 && strLtL a.1.data b.1.data)) c

/-! ### Scored bucketizer (source lines 408-422) -/

/-- The fixed tie-break order of `bucketize_scored` (source line 420). -/
def ORDER : List String :=
  ["rock", "country", "hip-hop", "classical", "musical", "electronic", "other"]

/-- Embeds `order.index(b) if b in order else 999` (source line 421). -/
def orderIdx (b : String) : ℕ :=
  match ORDER.indexOf? b with
  | some i => i
  | none => 999

/-- Accumulate `bucket_scores[CANON_TO_BUCKET[g]] += s` over the weighted
tag list (source lines 410-414); tags with no table entry are skipped. -/
def bucketScores (wg : List (String × ℚ)) : List (String × ℚ) :=
  wg.foldl (fun c p =>
    match alookup CANON_TO_BUCKET p.1 with
    | some b => cAdd c b p.2
    | none => c) []

/-- Relation: `x` strictly precedes `y` under the sort key
`(-score, orderIdx)` of `bucketize_scored` (source line 421). -/
def keyLt (x y : String × ℚ) : Prop :=
  y.2 < x.2 ∨ (x.2 = y.2 ∧ orderIdx x.1 < orderIdx y.1)

/-- Relation: `x` precedes or ties `y` under the same sort key. -/
def keyLe (x y : String × ℚ) : Prop :=
  y.2 < x.2 ∨ (y.2 = x.2 ∧ orderIdx x.1 ≤ orderIdx y.1)

instance keyLtDec (x y : String × ℚ) : Decidable (keyLt x y) := by
  unfold keyLt; infer_instance

/-- First element of the (stably) minimal key `(-score, orderIdx)`:
the head of Python's stable `sorted` (source line 421) — an element
later in the list replaces the current best only when it is *strictly*
better, which is exactly how a stable sort picks its head. -/
def pickTop (best : String × ℚ) : List (String × ℚ) → String × ℚ
  | [] => best
  | x :: rest => pickTop (if keyLt x best then x else best) rest

/-- Embeds `bucketize_scored(weighted_genres)` (source lines 408-422). -/
def bucketize_scored (wg : List (String × ℚ)) : String :=
  match bucketScores wg with
  | [] => "other"
  | x :: rest => (pickTop x rest).1

/-! ### Legacy substring bucketizer (source lines 189-198) -/

/-- Helper for the substring test: does `n` start `h`? -/
def leadEq : List Char → List Char → Bool
  | [], _ => true
  | _ :: _, [] => false
  | a :: as, b :: bs => a = b && leadEq as bs

/-- Python `needle in hay` for strings. -/
def substrOf (n : List Char) : List Char → Bool
  | [] => leadEq n []
  | c :: rest => leadEq n (c :: rest) || substrOf n rest

/-- The filtered, normalized tag list `gset` of `bucketize`
(source line 190). -/
def gsetOf (genres : List String) : List String :=
  (genres.filter (fun g => g ≠ "" && !(GENERIC_TAGS.contains (norm g)))).map normalize_genre

/-- The rule scan of `bucketize`: first rule one of whose needles occurs
in some tag (source lines 191-195). -/
def scanRules : List (String × List String) → List String → Option String
  | [], _ => none
  | (b, needles) :: rest, gset =>
    if gset.any (fun g => needles.any (fun n => substrOf n.data g.data)) then some b
    else scanRules rest gset

/-- Embeds `bucketize(genres)` with the default rules and default bucket
(source lines 189-198). -/
def bucketize (genres : List String) : String :=
  let gset := gsetOf genres
  match scanRules DEFAULT_BUCKET_RULES gset with
  | some b => b
  | none => match gset with
    | g :: _ => g
    | [] => "other"

/-! ### Data model -/

/-- A track artist as used by the aggregator: `a.get("id")` and
`a.get("name", "")`. -/
structure Artist where
  id : Option String
  name : String

/-- A track as used by the aggregator: only its `artists` list matters
(`tr.get("artists", [])`). -/
structure Track where
  artists : List Artist

/-- Python truthiness of `a.get("id")`: `None` and `""` are falsy. -/
def idOf (a : Artist) : Option String :=
  match a.id with
  | some s => if s = "" then none else some s
  | none => none

/-! ### Cache store (source lines 290-326) -/

/-- A persisted cache value: either the legacy raw tag list or the
current `{"genres": ..., "ts": ...}` object (spec §6 persistence
format). -/
inductive CacheEnt where
  | legacy (genres : List String)
  | timed (genres : List String) (ts : ℚ)
deriving DecidableEq, Repr

/-- The cache: a flat mapping keyed by artist id. -/
def Cache := List (String × CacheEnt)

/-- Embeds `cache_put(cache, aid, genres)` (source lines 324-326): store
`{"genres": genres, "ts": time.time()}` under `aid`, replacing any
previous entry. -/
def cache_put : List (String × CacheEnt) → String → List String → ℚ → List (String × CacheEnt)
  | [], aid, genres, now => [(aid, .timed genres now)]
  | (k, v) :: rest, aid, genres, now =>
    if k = aid then (k, .timed genres now) :: rest
    else (k, v) :: cache_put rest aid genres now

/-- Embeds `cache_get(cache, aid)` (source lines 308-322), with `time.time()`
made an explicit `now` parameter.  Returns the looked-up genres (`none`
= MISS) together with the possibly rewritten cache: a *non-empty* legacy
list entry is rewritten via `cache_put` while still signalling MISS; an
empty legacy list is falsy in Python and is returned as MISS before the
shape check, untouched. -/
def cache_get (cache : List (String × CacheEnt)) (aid : String) (now : ℚ) :
    Option (List String) × List (String × CacheEnt) :=
  match alookup cache aid with
  | none => (none, cache)
  | some (.legacy g) =>
    if g.isEmpty then (none, cache)
    else (none, cache_put cache aid g now)
  | some (.timed g ts) =>
    if now - ts > CACHE_TTL then (none, cache) else (some g, cache)

/-! ### Evidence providers (source lines 211-406) -/

/-- Embeds `get_genres_for_artist_ids(sp, ids)` (source lines 328-346): batch
fetch, normalizing each returned genre.  The network response is the
oracle `raw`; a batch failure marking all ids empty is `raw aid = []`. -/
def get_genres_for_artist_ids (raw : String → List String) (ids : List String) :
    List (String × List String) :=
  ids.map (fun aid => (aid, (raw aid).map normalize_genre))

/-- Embeds `genres_from_alias(artist_name)` (source lines 377-379). -/
def genres_from_alias (artist_name : String) : List String :=
  ((alookup ALIAS_GENRES artist_name).getD []).map normalize_genre

/-- Python `\w` (ASCII fragment): letters, digits, underscore. -/
def isWordChar (c : Char) : Bool := c.isAlphanum || c = '_'

/-- Maximal runs of word characters, used to decide the
`\b(word)\b` regex matches of `name_signal_genres`: for a pattern made
of word characters, a `\b`-delimited occurrence is exactly a maximal
word-character run equal to the pattern. -/
def wordRunsAux (cur : List Char) : List Char → List (List Char)
  | [] => if cur.isEmpty then [] else [cur.reverse]
  | c :: rest =>
    if isWordChar c then wordRunsAux (c :: cur) rest
    else if cur.isEmpty then wordRunsAux [] rest
    else cur.reverse :: wordRunsAux [] rest

def wordRuns (l : List Char) : List (List Char) := wordRunsAux [] l

/-- Embeds `name_signal_genres(artist_name)` (source lines 381-389). -/
def name_signal_genres (artist_name : String) : List String :=
  let a := lowerL artist_name.data
  if ["original broadway cast", "cast company", "broadway"].any
      (fun t => substrOf t.data a) then ["musicals"]
  else if (["orchestra", "symphony", "philharmonic"].any (fun t => substrOf t.data a)) ||
      (["debussy", "rachmaninov", "mozart", "beethoven", "vivaldi", "bocelli",
        "einaudi", "yiruma"].any (fun w => (wordRuns a).any (fun r => r = w.data)))
      then ["classical"]
  else []

/-- Embeds `infer_from_related(sp, artist_id)` (source lines 242-257): the
oracle `relO` yields the related artists' genre lists
(`sp.artist_related_artists(aid)["artists"][i]["genres"]`); pool the
first 10, normalize, and keep the keys of `Counter(...).most_common(3)`
(a stable descending sort by count, first three).  A transport error is
`relO aid = []`. -/
def infer_from_related (relO : String → List (List String)) (aid : String) : List String :=
  let genres := (((relO aid).take 10).foldl (· ++ ·) []).map normalize_genre
  let cnt := genres.foldl (fun c g => cAdd c g 1) []
  ((sortBy (fun a b => b.2 < a.2) cnt).take 3).map Prod.fst

/-- Embeds `mb_artist_genres(mbid)` (source lines 276-288): the oracle `mbT`
yields the raw tag names of the MusicBrainz response; drop empty names
and names whose *lowercase* (not `norm`) form is generic, then
normalize. -/
def mb_artist_genres (mbT : String → List String) (mbid : String) : List String :=
  ((mbT mbid).filter
    (fun n => n ≠ "" && !(GENERIC_TAGS.contains ⟨lowerL n.data⟩))).map normalize_genre

/-! ### Evidence aggregator (source lines 348-375, 391-394, 1180-1218) -/

/-- Embeds `add_weighted(scores, genres, weight)` (source lines 391-394). -/
def add_weighted (scores : List (String × ℚ)) (genres : List String) (weight : ℚ) :
    List (String × ℚ) :=
  genres.foldl (fun c g => cAdd c (normalize_genre g) weight) scores

/-- Embeds `missing = [aid for aid in ids if aid and cache_get(cache, aid) is None]`
(source line 357): collect the cache misses, threading the cache because
`cache_get` rewrites legacy entries. -/
def missingPass (ids : List String) (cache : List (String × CacheEnt)) (now : ℚ) :
    List String × List (String × CacheEnt) :=
  ids.foldl (fun acc aid =>
    let rc := cache_get acc.2 aid now
    (if rc.1 = none then acc.1 ++ [aid] else acc.1, rc.2)) ([], cache)

/-- Embeds `for aid, genres in batch_results.items(): cache_put(cache, aid, genres)`
(source lines 359-361). -/
def fetchPass (raw : String → List String) (missing : List String)
    (cache : List (String × CacheEnt)) (now : ℚ) : List (String × CacheEnt) :=
  (get_genres_for_artist_ids raw missing).foldl (fun c p => cache_put c p.1 p.2 now) cache

/-- The scoring loop of `weighted_genres_for_track` (source lines
363-372): `scores[g] += ARTIST_WEIGHTS[role]` for each cached tag of
each artist carrying an id, role = primary for index 0. -/
def scorePass (artists : List Artist) (cache : List (String × CacheEnt)) (now : ℚ) :
    List (String × ℚ) × List (String × CacheEnt) :=
  artists.enum.foldl (fun acc ia =>
    match idOf ia.2 with
    | none => acc
    | some aid =>
      let w := (alookup ARTIST_WEIGHTS (if ia.1 = 0 then "primary" else "featured")).getD 0
      let rc := cache_get acc.2 aid now
      ((rc.1.getD []).foldl (fun c g => cAdd c g w) acc.1, rc.2)) ([], cache)

/-- Embeds `weighted_genres_for_track(sp, track, cache)` (source lines
348-375).  The direct-catalog network call is the oracle `raw`
(see `get_genres_for_artist_ids`); `time.time()` is `now`.  Returns the
sorted weighted tag list together with the mutated cache. -/
def weighted_genres_for_track (raw : String → List String) (tr : Track)
    (cache : List (String × CacheEnt)) (now : ℚ) :
    List (String × ℚ) × List (String × CacheEnt) :=
  match tr.artists with
  | [] => ([], cache)
  | artists =>
    let mc := missingPass (artists.filterMap idOf) cache now
    let c2 := fetchPass raw mc.1 mc.2 now
    let sc := scorePass artists c2 now
    (sortScores sc.1, sc.2)

/-- Tier 1 of `genres_for_track` (source lines 1184-1187): feed the
output of `weighted_genres_for_track` through
`add_weighted(scores, [g], WEIGHTS_SOURCE["spotify_artist"] * s)`. -/
def tier1Fold (w : List (String × ℚ)) (s0 : List (String × ℚ)) : List (String × ℚ) :=
  w.foldl (fun sc gs =>
    cAdd sc (normalize_genre gs.1) (((alookup WEIGHTS_SOURCE "spotify_artist").getD 0) * gs.2)) s0

/-- Tier 2 of `genres_for_track` (source lines 1189-1192): alias table
for every artist of the track. -/
def aliasFold (tr : Track) (s0 : List (String × ℚ)) : List (String × ℚ) :=
  tr.artists.foldl (fun sc a =>
    add_weighted sc (genres_from_alias a.name) ((alookup WEIGHTS_SOURCE "alias").getD 0)) s0

/-- Tier 3 of `genres_for_track` (source lines 1194-1197): name-signal
heuristics for every artist of the track. -/
def nameFold (tr : Track) (s0 : List (String × ℚ)) : List (String × ℚ) :=
  tr.artists.foldl (fun sc a =>
    add_weighted sc (name_signal_genres a.name) ((alookup WEIGHTS_SOURCE "name_signal").getD 0)) s0

/-- Tier 5 of `genres_for_track` (source lines 1206-1214): MusicBrainz
for every artist of the track that has a non-empty name. -/
def mbFold (mbS : String → Option String) (mbT : String → List String) (tr : Track)
    (s0 : List (String × ℚ)) : List (String × ℚ) :=
  tr.artists.foldl (fun sc a =>
    if a.name ≠ "" then
      match mbS a.name with
      | some mbid =>
        add_weighted sc (mb_artist_genres mbT mbid) ((alookup WEIGHTS_SOURCE "musicbrainz").getD 0)
      | none => sc
    else sc) s0

/-- Embeds `genres_for_track(sp, tr, cache)` (source lines 1180-1218): the
tiered fallback.  Oracles: `raw` (direct catalog), `relO` (related
artists), `mbS` (MusicBrainz name search), `mbT` (MusicBrainz tag
fetch); flags `inferRelated` / `useMB` are `args.infer_related` /
`args.use_musicbrainz`.  Returns `none` for the uncaught `IndexError`
raised by `tr.get("artists", [{}])[0]` when the artist list is present
but empty and the related tier is reached. -/
def genres_for_track (raw : String → List String) (relO : String → List (List String))
    (mbS : String → Option String) (mbT : String → List String)
    (inferRelated useMB : Bool) (tr : Track)
    (cache : List (String × CacheEnt)) (now : ℚ) :
    Option (List (String × ℚ) × List (String × CacheEnt)) :=
  -- 1) Spotify direct (weighted by primary/featured)
  let wc := weighted_genres_for_track raw tr cache now
  let s1 := tier1Fold wc.1 []
  -- 2) alias by name
  let s2 := if s1.isEmpty then aliasFold tr s1 else s1
  -- 3) name signals
  let s3 := if s2.isEmpty then nameFold tr s2 else s2
  -- 4) related artists (primary only); `tr.get("artists", [{}])[0]`
  let s4o : Option (List (String × ℚ)) :=
    if s3.isEmpty && inferRelated then
      match tr.artists with
      | [] => none
      | a0 :: _ =>
        match idOf a0 with
        | some pid =>
          some (add_weighted s3 (infer_from_related relO pid)
            ((alookup WEIGHTS_SOURCE "spotify_related").getD 0))
        | none => some s3
    else some s3
  match s4o with
  | none => none
  | some s4 =>
    -- 5) MusicBrainz tags
    let s5 := if s4.isEmpty && useMB then mbFold mbS mbT tr s4 else s4
    some (sortScores s5, wc.2)

/-- Tier 4 of `genres_for_track` run on its own (source lines
1199-1204): related-artist inference for the primary (first-listed)
artist only, skipped when the primary artist has no id. -/
def relatedTier (relO : String → List (List String)) (tr : Track) : List (String × ℚ) :=
  match tr.artists with
  | [] => []
  | a0 :: _ =>
    match idOf a0 with
    | some pid =>
      add_weighted [] (infer_from_related relO pid) ((alookup WEIGHTS_SOURCE "spotify_related").getD 0)
    | none => []

/-- The escalation protocol exactly as the specification words it: take
the direct-catalog tier; if it accumulated nothing, escalate to the
alias tier for all artists, then the name-heuristic tier, then the
related tier (only if enabled), then the external-tag tier (only if
enabled), stopping at the first tier whose accumulated evidence is
non-empty.  This is the spec-side description that `genres_for_track`
is proved to implement (claim C2). -/
def specEscalation (raw : String → List String) (relO : String → List (List String))
    (mbS : String → Option String) (mbT : String → List String)
    (inferRelated useMB : Bool) (tr : Track)
    (cache : List (String × CacheEnt)) (now : ℚ) : List (String × ℚ) :=
  let t1 := tier1Fold (weighted_genres_for_track raw tr cache now).1 []
  if t1 ≠ [] then t1
  else if aliasFold tr [] ≠ [] then aliasFold tr []
  else if nameFold tr [] ≠ [] then nameFold tr []
  else if inferRelated = true ∧ relatedTier relO tr ≠ [] then relatedTier relO tr
  else if useMB = true ∧ mbFold mbS mbT tr [] ≠ [] then mbFold mbS mbT tr []
  else []

/-- The total weight the weighted tag list sends to bucket `b` through
the canonical table (the "sums the weights per bucket" side of C1). -/
def tagSum : List (String × ℚ) → String → ℚ
  | [], _ => 0
  | p :: r, b => (if alookup CANON_TO_BUCKET p.1 = some b then p.2 else 0) + tagSum r b

/-- The accumulation step of `bucketScores`. -/
def bsStep (c : List (String × ℚ)) (p : String × ℚ) : List (String × ℚ) :=
  match alookup CANON_TO_BUCKET p.1 with
  | some b => cAdd c b p.2
  | none => c

/-- Predicate under which `l` is a fixed point of `collapseAux b`:
every whitespace character is a plain space and no space follows
`b = true` or another space. -/
def noSpaceRun : Bool → List Char → Bool
  | _, [] => true
  | prev, c :: r =>
    if pyIsSpace c then (c = ' ') && (!prev) && noSpaceRun true r
    else noSpaceRun false r

/-- Condition for the amended C7: the normalized form has no leading
and no trailing space.  (Normalization can only produce an edge space
out of a slash or underscore standing at an edge of the stripped raw
input.) -/
def edgeSpaceFree (s : String) : Bool :=
  match s.data with
  | [] => true
  | c :: r => !pyIsSpace c && !pyIsSpace ((c :: r).getLastD ' ')

/-! ### Closed evaluations settling the falsified / buggy claims -/

/-- C7 (counterexample): tag normalization is *not* idempotent.  The
input `"rock/"` strips to itself, the slash becomes a trailing space,
and the whitespace collapse does not remove it, so
`normalize_genre "rock/" = "rock "`; a second normalization strips the
trailing space to `"rock"`. -/
theorem C7_counterexample :
    normalize_genre (normalize_genre "rock/") ≠ normalize_genre "rock/" := by
  decide

/-- C8 (counterexample): the non-empty input `" "` normalizes to the
empty string, because stripping removes everything. -/
theorem C8_counterexample :
    (" " : String) ≠ "" ∧ normalize_genre " " = "" := by
  constructor
  · decide
  · decide

/-- C10 (counterexample): `bucketize ["other"]` returns `"other"` even
though the filtered tag list is the non-empty `["other"]` — the string
`"other"` contains no rule needle, so the first-tag fallback happens to
return the default label with a non-empty filtered list. -/
theorem C10_counterexample :
    bucketize ["other"] = "other" ∧ gsetOf ["other"] = ["other"] := by
  constructor
  · decide
  · decide

/-- C6 (counterexample): an *empty* legacy list entry is falsy in
Python, so `cache_get` returns MISS before the shape check and does
*not* rewrite the entry into the current timestamped shape — the cache
comes back unchanged, still holding `CacheEnt.legacy []`. -/
theorem C6_counterexample :
    cache_get [("a", CacheEnt.legacy [])] "a" 100 =
      (none, [("a", CacheEnt.legacy [])]) := by
  decide

/-- C3 (code bug, evaluation at the failing input): for an artist whose
direct catalog lookup by id yields no tags, `weighted_genres_for_track`
returns no evidence and writes the *empty* tag list back to the cache;
it never falls through to a catalog search by the artist's name (the
helper `search_artist_genres_by_name` exists in the source but is never
called), even though the artist's name is present. -/
theorem C3_no_name_fallback_eval :
    weighted_genres_for_track (fun _ => []) ⟨[⟨some "a1", "Andrea Bocelli"⟩]⟩ [] 1000 =
      ([], [("a1", CacheEnt.timed [] 1000)]) := by
  with_unfolding_all decide

/-- C9 (code bug, evaluation at the failing input): with related-artist
inference enabled, a track whose `"artists"` key holds the empty list
makes `genres_for_track` evaluate `tr.get("artists", [{}])[0]`, an
uncaught `IndexError` (modelled as `none`); with both optional tiers
disabled the same track — and likewise a track whose only artist lacks
both id and name — flows through every tier with empty evidence and the
classifier assigns `"other"`. -/
theorem C9_empty_artists_eval :
    (genres_for_track (fun _ => ["rock"]) (fun _ => [["rock"]]) (fun _ => some "m")
        (fun _ => ["rock"]) true true ⟨[]⟩ [] 1000 = none)
    ∧ (genres_for_track (fun _ => ["rock"]) (fun _ => [["rock"]]) (fun _ => some "m")
        (fun _ => ["rock"]) false false ⟨[]⟩ [] 1000 = some ([], []))
    ∧ (genres_for_track (fun _ => ["rock"]) (fun _ => [["rock"]]) (fun _ => some "m")
        (fun _ => ["rock"]) true true ⟨[⟨none, ""⟩]⟩ [] 1000 = some ([], []))
    ∧ bucketize_scored [] = "other" := by
  refine ⟨by decide, by decide, by decide, by decide⟩

/-- C4 (counterexample): generic tags are *not* excluded end to end.
For a one-artist track by `"Macklemore"`, direct-catalog evidence
consisting of the single generic tag `"seen live"` makes the tier-1
score set non-empty, which suppresses the alias fallback, and the
classifier returns `"other"`; removing that generic tag lets the alias
tier fire and the final bucket becomes `"hip-hop"`. -/
theorem C4_counterexample :
    ((genres_for_track (fun _ => ["seen live"]) (fun _ => []) (fun _ => none) (fun _ => [])
        false false ⟨[⟨some "id1", "Macklemore"⟩]⟩ [] 1000).map
        (fun p => bucketize_scored p.1) = some "other")
    ∧ ((genres_for_track (fun _ => []) (fun _ => []) (fun _ => none) (fun _ => [])
        false false ⟨[⟨some "id1", "Macklemore"⟩]⟩ [] 1000).map
        (fun p => bucketize_scored p.1) = some "hip-hop")
    ∧ "seen live" ∈ GENERIC_TAGS := by
  refine ⟨by with_unfolding_all decide, by with_unfolding_all decide, by decide⟩

/-! ### C1: correctness of the scored bucketizer -/

theorem bucketScores_eq_foldl (wg : List (String × ℚ)) :
    bucketScores wg = wg.foldl bsStep [] := by
  rfl

theorem cVal_cAdd (c : List (String × ℚ)) (k : String) (w : ℚ) (b : String) :
    cVal (cAdd c k w) b = cVal c b + (if k = b then w else 0) := by
  induction c with
  | nil => by_cases h : k = b <;> simp [cAdd, cVal, alookup, h]
  | cons hd tl ih =>
    obtain ⟨k', w'⟩ := hd
    by_cases h1 : k' = k
    · subst h1
      by_cases h2 : k' = b
      · simp [cAdd, cVal, alookup, h2]
      · simp [cAdd, cVal, alookup, h2]
    · by_cases h2 : k' = b
      · subst h2
        have h3 : ¬ k = k' := fun h => h1 h.symm
        simp [cAdd, cVal, alookup, h1, h3]
      · simpa [cAdd, cVal, alookup, h1, h2] using ih

theorem mem_keys_cAdd (c : List (String × ℚ)) (k w b) :
    b ∈ (cAdd c k w).map Prod.fst ↔ b ∈ c.map Prod.fst ∨ b = k := by
  induction c with
  | nil => simp [cAdd]
  | cons hd tl ih =>
    obtain ⟨k', w'⟩ := hd
    by_cases h1 : k' = k
    · subst h1; simp [cAdd]; tauto
    · simp [cAdd, h1, ih]; tauto

theorem nodup_keys_cAdd (c : List (String × ℚ)) (k w)
    (h : (c.map Prod.fst).Nodup) : ((cAdd c k w).map Prod.fst).Nodup := by
  induction c with
  | nil => simp [cAdd]
  | cons hd tl ih =>
    obtain ⟨k', w'⟩ := hd
    simp only [List.map_cons, List.nodup_cons] at h
    by_cases h1 : k' = k
    · subst h1; simpa [cAdd] using h
    · simp only [cAdd, if_neg h1, List.map_cons, List.nodup_cons]
      refine ⟨fun hm => ?_, ih h.2⟩
      rcases (mem_keys_cAdd tl k w k').mp hm with hm | hm
      · exact h.1 hm
      · exact h1 hm

theorem alookup_of_mem_nodup {α : Type} (c : List (String × α)) (k : String) (v : α)
    (hm : (k, v) ∈ c) (hn : (c.map Prod.fst).Nodup) : alookup c k = some v := by
  induction c with
  | nil => exact absurd hm (List.not_mem_nil _)
  | cons hd tl ih =>
    obtain ⟨k', v'⟩ := hd
    simp only [List.map_cons, List.nodup_cons] at hn
    rcases List.mem_cons.mp hm with h | h
    · rw [Prod.mk.injEq] at h
      obtain ⟨h1, h2⟩ := h
      subst h1
      subst h2
      simp [alookup]
    · have hk : ¬ k' = k := by
        intro he
        subst he
        exact hn.1 (List.mem_map.mpr ⟨(k', v), h, rfl⟩)
      simp only [alookup, if_neg hk]
      exact ih h hn.2

theorem cVal_bucketScores (wg : List (String × ℚ)) (c : List (String × ℚ)) (b : String) :
    cVal (wg.foldl bsStep c) b = cVal c b + tagSum wg b := by
  induction wg generalizing c with
  | nil => simp [tagSum]
  | cons p wg ih =>
    simp only [List.foldl_cons, ih, tagSum]
    rcases hp : alookup CANON_TO_BUCKET p.1 with _ | b'
    · simp [bsStep, hp]
    · by_cases hb : b' = b
      · subst hb
        simp [bsStep, hp, cVal_cAdd]
        ring
      · simp [bsStep, hp, cVal_cAdd, hb, Option.some_inj]

theorem mem_keys_bucketScores (wg : List (String × ℚ)) (c : List (String × ℚ)) (b : String) :
    b ∈ (wg.foldl bsStep c).map Prod.fst ↔
      b ∈ c.map Prod.fst ∨ ∃ p ∈ wg, alookup CANON_TO_BUCKET p.1 = some b := by
  induction wg generalizing c with
  | nil => simp
  | cons p wg ih =>
    rw [List.foldl_cons, ih]
    rcases hp : alookup CANON_TO_BUCKET p.1 with _ | b'
    · have hstep : bsStep c p = c := by simp [bsStep, hp]
      rw [hstep]
      constructor
      · rintro (h | ⟨q, hq, hq2⟩)
        · exact Or.inl h
        · exact Or.inr ⟨q, List.mem_cons_of_mem p hq, hq2⟩
      · rintro (h | ⟨q, hq, hq2⟩)
        · exact Or.inl h
        · rcases List.mem_cons.mp hq with hq | hq
          · subst hq
            rw [hp] at hq2
            simp at hq2
          · exact Or.inr ⟨q, hq, hq2⟩
    · have hstep : bsStep c p = cAdd c b' p.2 := by simp [bsStep, hp]
      rw [hstep, mem_keys_cAdd]
      constructor
      · rintro ((h | h) | ⟨q, hq, hq2⟩)
        · exact Or.inl h
        · subst h
          exact Or.inr ⟨p, List.mem_cons_self p wg, hp⟩
        · exact Or.inr ⟨q, List.mem_cons_of_mem p hq, hq2⟩
      · rintro (h | ⟨q, hq, hq2⟩)
        · exact Or.inl (Or.inl h)
        · rcases List.mem_cons.mp hq with hq | hq
          · subst hq
            rw [hp] at hq2
            exact Or.inl (Or.inr (Option.some_inj.mp hq2).symm)
          · exact Or.inr ⟨q, hq, hq2⟩

theorem nodup_keys_bucketScores (wg : List (String × ℚ)) (c : List (String × ℚ))
    (h : (c.map Prod.fst).Nodup) : ((wg.foldl bsStep c).map Prod.fst).Nodup := by
  induction wg generalizing c with
  | nil => exact h
  | cons p wg ih =>
    simp only [List.foldl_cons]
    apply ih
    rcases hp : alookup CANON_TO_BUCKET p.1 with _ | b'
    · simpa [bsStep, hp] using h
    · simpa [bsStep, hp] using nodup_keys_cAdd c b' p.2 h

theorem keyLe_rfl (x : String × ℚ) : keyLe x x := by
  simp [keyLe]

theorem keyLe_trans {x y z : String × ℚ} (h1 : keyLe x y) (h2 : keyLe y z) : keyLe x z := by
  rcases h1 with h1 | ⟨h1, h1i⟩ <;> rcases h2 with h2 | ⟨h2, h2i⟩
  · exact Or.inl (h2.trans h1)
  · exact Or.inl (h2 ▸ h1)
  · exact Or.inl (h1 ▸ h2)
  · exact Or.inr ⟨h2.trans h1, le_trans h1i h2i⟩

theorem keyLe_of_keyLt {x y : String × ℚ} (h : keyLt x y) : keyLe x y := by
  rcases h with h | ⟨h, hi⟩
  · exact Or.inl h
  · exact Or.inr ⟨h.symm, le_of_lt hi⟩

theorem keyLe_of_not_keyLt {x y : String × ℚ} (h : ¬ keyLt x y) : keyLe y x := by
  unfold keyLt at h
  push_neg at h
  rcases lt_trichotomy x.2 y.2 with hv | hv | hv
  · exact Or.inl hv
  · exact Or.inr ⟨hv, h.2 hv⟩
  · exact absurd h.1 (not_le.mpr hv)

theorem pickTop_mem (best : String × ℚ) (l : List (String × ℚ)) :
    pickTop best l = best ∨ pickTop best l ∈ l := by
  induction l generalizing best with
  | nil => exact Or.inl rfl
  | cons x rest ih =>
    simp only [pickTop]
    by_cases h : keyLt x best
    · rw [if_pos h]
      rcases ih x with h2 | h2
      · refine Or.inr ?_
        rw [h2]
        exact List.mem_cons_self x rest
      · exact Or.inr (List.mem_cons_of_mem x h2)
    · rw [if_neg h]
      rcases ih best with h2 | h2
      · exact Or.inl h2
      · exact Or.inr (List.mem_cons_of_mem x h2)

theorem pickTop_min (best : String × ℚ) (l : List (String × ℚ)) :
    keyLe (pickTop best l) best ∧ ∀ p ∈ l, keyLe (pickTop best l) p := by
  induction l generalizing best with
  | nil => exact ⟨keyLe_rfl best, by simp⟩
  | cons x rest ih =>
    simp only [pickTop]
    by_cases h : keyLt x best
    · rw [if_pos h]
      obtain ⟨h1, h2⟩ := ih x
      refine ⟨keyLe_trans h1 (keyLe_of_keyLt h), fun p hp => ?_⟩
      rcases List.mem_cons.mp hp with hp | hp
      · subst hp
        exact h1
      · exact h2 p hp
    · rw [if_neg h]
      obtain ⟨h1, h2⟩ := ih best
      refine ⟨h1, fun p hp => ?_⟩
      rcases List.mem_cons.mp hp with hp | hp
      · subst hp
        exact keyLe_trans h1 (keyLe_of_not_keyLt h)
      · exact h2 p hp

/-- C1 (confirmed): `bucketize_scored` maps each tag to a bucket via the
fixed canonical table `CANON_TO_BUCKET` and sums the weights per bucket
(`cVal (bucketScores wg) b = tagSum wg b`, and a bucket appears exactly
when some tag maps to it — tags with no entry contribute nothing);
it returns `"other"` when no tag mapped to any bucket; and otherwise the
returned bucket carries the summed weight `s` such that every bucket's
total is either strictly below `s` or equal to `s` with a tie-break
position (`orderIdx`: position in the fixed order rock > country >
hip-hop > classical > musical > electronic > other, `999` — hence last —
for anything else) no earlier than the winner's. -/
theorem C1_bucketize_scored_correct (wg : List (String × ℚ)) :
    (∀ b : String, cVal (bucketScores wg) b = tagSum wg b)
    ∧ (∀ b : String, b ∈ (bucketScores wg).map Prod.fst ↔
        ∃ p ∈ wg, alookup CANON_TO_BUCKET p.1 = some b)
    ∧ ((∀ p ∈ wg, alookup CANON_TO_BUCKET p.1 = none) → bucketize_scored wg = "other")
    ∧ ((∃ p ∈ wg, alookup CANON_TO_BUCKET p.1 ≠ none) →
        ∃ s : ℚ, (bucketize_scored wg, s) ∈ bucketScores wg
          ∧ cVal (bucketScores wg) (bucketize_scored wg) = s
          ∧ ∀ q ∈ bucketScores wg,
              q.2 < s ∨ (q.2 = s ∧ orderIdx (bucketize_scored wg) ≤ orderIdx q.1)) := by
  have hval : ∀ b, cVal (bucketScores wg) b = tagSum wg b := by
    intro b
    rw [bucketScores_eq_foldl, cVal_bucketScores]
    simp [cVal, alookup]
  have hmem : ∀ b, b ∈ (bucketScores wg).map Prod.fst ↔
      ∃ p ∈ wg, alookup CANON_TO_BUCKET p.1 = some b := by
    intro b
    rw [bucketScores_eq_foldl, mem_keys_bucketScores]
    simp
  have hnodup : ((bucketScores wg).map Prod.fst).Nodup := by
    rw [bucketScores_eq_foldl]
    exact nodup_keys_bucketScores wg [] (by simp)
  refine ⟨hval, hmem, fun hall => ?_, fun hsome => ?_⟩
  · have : bucketScores wg = [] := by
      rcases hbs : bucketScores wg with _ | ⟨⟨b, s⟩, rest⟩
      · rfl
      · exfalso
        have : b ∈ (bucketScores wg).map Prod.fst := by
          rw [hbs]; simp
        obtain ⟨p, hp, hp2⟩ := (hmem b).mp this
        rw [hall p hp] at hp2
        simp at hp2
    simp [bucketize_scored, this]
  · obtain ⟨p, hp, hp2⟩ := hsome
    rcases hcb : alookup CANON_TO_BUCKET p.1 with _ | b0
    · exact absurd hcb hp2
    have hb0 : b0 ∈ (bucketScores wg).map Prod.fst := (hmem b0).mpr ⟨p, hp, hcb⟩
    rcases hbs : bucketScores wg with _ | ⟨x, rest⟩
    · rw [hbs] at hb0; simp at hb0
    rw [hbs] at hnodup
    have htop : bucketize_scored wg = (pickTop x rest).1 := by
      simp [bucketize_scored, hbs]
    have hmemtop : pickTop x rest ∈ x :: rest := by
      rcases pickTop_mem x rest with h | h
      · rw [h]
        exact List.mem_cons_self x rest
      · exact List.mem_cons_of_mem x h
    refine ⟨(pickTop x rest).2, ?_, ?_, fun q hq => ?_⟩
    · rw [htop]
      simpa using hmemtop
    · rw [htop]
      have hl := alookup_of_mem_nodup (x :: rest) (pickTop x rest).1 (pickTop x rest).2
        (by simpa using hmemtop) hnodup
      simp [cVal, hl]
    · obtain ⟨h1, h2⟩ := pickTop_min x rest
      have hle : keyLe (pickTop x rest) q := by
        rcases List.mem_cons.mp hq with hq | hq
        · subst hq
          exact h1
        · exact h2 q hq
      rw [htop]
      rcases hle with h | ⟨h, hi⟩
      · exact Or.inl h
      · exact Or.inr ⟨h, hi⟩

/-- Witness for C1, discharging its hypotheses at a concrete input:
for `[("trap", 1), ("classical", 1/2)]` some tag maps to a bucket and
the conclusions evaluate as expected. -/
theorem C1_witness :
    ∃ s : ℚ, (bucketize_scored [("trap", 1), ("classical", 1/2)], s)
        ∈ bucketScores [("trap", 1), ("classical", 1/2)]
      ∧ cVal (bucketScores [("trap", 1), ("classical", 1/2)])
          (bucketize_scored [("trap", 1), ("classical", 1/2)]) = s
      ∧ ∀ q ∈ bucketScores [("trap", 1), ("classical", 1/2)],
          q.2 < s ∨ (q.2 = s ∧
            orderIdx (bucketize_scored [("trap", 1), ("classical", 1/2)]) ≤ orderIdx q.1) :=
  (C1_bucketize_scored_correct [("trap", 1), ("classical", 1/2)]).2.2.2
    ⟨("trap", 1), by simp, by with_unfolding_all decide⟩

/-! ### C2: the escalation protocol -/

theorem isEmpty_eq_nil {α : Type} (l : List α) : l.isEmpty = true ↔ l = [] := by
  cases l <;> simp

/-- C2 (confirmed): for a track with at least one artist,
`genres_for_track` returns exactly the stable sort of the escalation
chain: the direct-catalog tier; if its accumulated evidence across all
artists is empty, the alias tier over all artists; then the
name-heuristic tier over all artists; then the related tier (only if
`inferRelated`); then the MusicBrainz tier (only if `useMB`); each tier
is computed for the whole track at once and the first tier with
non-empty accumulated evidence wins. -/
theorem C2_escalation_order (raw : String → List String) (relO : String → List (List String))
    (mbS : String → Option String) (mbT : String → List String)
    (inferRelated useMB : Bool) (tr : Track) (cache : List (String × CacheEnt)) (now : ℚ)
    (h : tr.artists ≠ []) :
    genres_for_track raw relO mbS mbT inferRelated useMB tr cache now =
      some (sortScores (specEscalation raw relO mbS mbT inferRelated useMB tr cache now),
        (weighted_genres_for_track raw tr cache now).2) := by
  obtain ⟨a0, arest, htr⟩ : ∃ a0 arest, tr.artists = a0 :: arest := by
    rcases htr : tr.artists with _ | ⟨a0, arest⟩
    · exact absurd htr h
    · exact ⟨a0, arest, rfl⟩
  simp only [genres_for_track, specEscalation]
  by_cases h1 : tier1Fold (weighted_genres_for_track raw tr cache now).1 [] = []
  · rw [h1]
    simp only [List.isEmpty_nil, if_true, ne_eq, not_true_eq_false, if_false, ite_true,
      ite_false, not_true]
    by_cases h2 : aliasFold tr [] = []
    · rw [h2]
      simp only [List.isEmpty_nil, ite_true, ne_eq, not_true_eq_false, ite_false]
      by_cases h3 : nameFold tr [] = []
      · rw [h3]
        simp only [List.isEmpty_nil, Bool.true_and, ne_eq, not_true_eq_false, ite_false]
        cases inferRelated with
        | false =>
          simp only [if_false, Bool.false_eq_true, false_and, ite_false]
          cases useMB with
          | false => simp
          | true =>
            simp only [List.isEmpty_nil, Bool.and_self, if_true, true_and, ne_eq, ite_not]
            by_cases h5 : mbFold mbS mbT tr [] = []
            · rw [h5]
              simp
            · simp [h5]
        | true =>
          simp only [if_true, true_and, ne_eq]
          rw [htr]
          rcases hid : idOf a0 with _ | pid
          · have hrt : relatedTier relO tr = [] := by
              simp [relatedTier, htr, hid]
            simp only [hid, hrt, not_true_eq_false, and_false, false_and, ite_false,
              not_false_eq_true, ne_eq]
            cases useMB with
            | false => simp
            | true =>
              simp only [List.isEmpty_nil, Bool.and_self, if_true, true_and, ne_eq]
              by_cases h5 : mbFold mbS mbT tr [] = []
              · rw [h5]
                simp
              · simp [h5]
          · have hrt : relatedTier relO tr =
                add_weighted [] (infer_from_related relO pid)
                  ((alookup WEIGHTS_SOURCE "spotify_related").getD 0) := by
              simp [relatedTier, htr, hid]
            simp only [hid]
            rw [← hrt]
            by_cases h4 : relatedTier relO tr = []
            · rw [h4]
              simp only [List.isEmpty_nil, not_true_eq_false, and_false, ite_false]
              cases useMB with
              | false => simp
              | true =>
                simp only [List.isEmpty_nil, Bool.and_self, if_true, true_and, ne_eq]
                by_cases h5 : mbFold mbS mbT tr [] = []
                · rw [h5]
                  simp
                · simp [h5]
            · have h4e : (relatedTier relO tr).isEmpty = false := by
                rcases hrl : relatedTier relO tr with _ | ⟨y, ys⟩
                · exact absurd hrl h4
                · rfl
              simp [h4e, h4]
      · have h3e : (nameFold tr []).isEmpty = false := by
          rcases hnl : nameFold tr [] with _ | ⟨y, ys⟩
          · exact absurd hnl h3
          · rfl
        simp [h3e, h3]
    · have h2e : (aliasFold tr []).isEmpty = false := by
        rcases hal : aliasFold tr [] with _ | ⟨y, ys⟩
        · exact absurd hal h2
        · rfl
      simp [h2e, h2]
  · have h1e : (tier1Fold (weighted_genres_for_track raw tr cache now).1 []).isEmpty = false := by
      rcases h1l : tier1Fold (weighted_genres_for_track raw tr cache now).1 [] with _ | ⟨y, ys⟩
      · exact absurd h1l h1
      · rfl
    simp [h1e, h1]

/-- Witness for C2, discharging its hypothesis on a concrete track:
a one-artist track whose only evidence is the alias-table entry for
`"Macklemore"` escalates exactly to the alias tier. -/
theorem C2_witness :
    genres_for_track (fun _ => []) (fun _ => []) (fun _ => none) (fun _ => [])
        false false ⟨[⟨some "id1", "Macklemore"⟩]⟩ [] 1000 =
      some (sortScores (specEscalation (fun _ => []) (fun _ => []) (fun _ => none) (fun _ => [])
          false false ⟨[⟨some "id1", "Macklemore"⟩]⟩ [] 1000),
        (weighted_genres_for_track (fun _ => []) ⟨[⟨some "id1", "Macklemore"⟩]⟩ [] 1000).2) :=
  C2_escalation_order (fun _ => []) (fun _ => []) (fun _ => none) (fun _ => [])
    false false ⟨[⟨some "id1", "Macklemore"⟩]⟩ [] 1000 (by simp)

/-! ### C5: role weighting -/

theorem cSum_cAdd (c : List (String × ℚ)) (k : String) (w : ℚ) :
    cSum (cAdd c k w) = cSum c + w := by
  induction c with
  | nil => simp [cAdd, cSum]
  | cons hd tl ih =>
    obtain ⟨k', w'⟩ := hd
    by_cases h : k' = k
    · subst h
      simp only [cAdd, eq_self_iff_true, ite_true, if_true, cSum, List.map_cons, List.sum_cons]
      ring
    · simp only [cAdd, if_neg h, cSum, List.map_cons, List.sum_cons]
      have ih' : (List.map Prod.snd (cAdd tl k w)).sum = (List.map Prod.snd tl).sum + w := ih
      rw [ih']
      ring

theorem cSum_foldl_cAdd (gs : List String) (c : List (String × ℚ)) (w : ℚ) :
    cSum (gs.foldl (fun c g => cAdd c g w) c) = cSum c + gs.length * w := by
  induction gs generalizing c with
  | nil => simp
  | cons g gs ih =>
    simp only [List.foldl_cons, ih, cSum_cAdd, List.length_cons]
    push_cast
    ring

theorem cSum_insBy (prec : (String × ℚ) → (String × ℚ) → Bool) (x : String × ℚ)
    (l : List (String × ℚ)) : cSum (insBy prec x l) = x.2 + cSum l := by
  induction l with
  | nil => simp [insBy, cSum]
  | cons y ys ih =>
    by_cases h : prec y x
    · simp only [insBy, if_pos h, cSum, List.map_cons, List.sum_cons]
      have ih' : (List.map Prod.snd (insBy prec x ys)).sum = x.2 + (List.map Prod.snd ys).sum := ih
      rw [ih']
      ring
    · simp only [insBy, if_neg h, cSum, List.map_cons, List.sum_cons]

theorem cSum_sortBy (prec : (String × ℚ) → (String × ℚ) → Bool) (l : List (String × ℚ)) :
    cSum (sortBy prec l) = cSum l := by
  unfold sortBy
  induction l with
  | nil => rfl
  | cons x xs ih =>
    rw [List.foldr_cons, cSum_insBy, ih]
    simp [cSum]

theorem cSum_sortScores (l : List (String × ℚ)) : cSum (sortScores l) = cSum l :=
  cSum_sortBy _ l

/-- C5 (confirmed): on a two-artist track with distinct artist ids and a
cold cache, every tag of the first-listed artist enters the counter with
role weight `ARTIST_WEIGHTS["primary"] = 1`, every tag of the second
with `ARTIST_WEIGHTS["featured"] = 1/2`, weights accumulating
additively, so the total accumulated mass is
`1·|tags₀| + (1/2)·|tags₁|`; consequently the featured artist's mass
exceeds the primary artist's exactly when the featured raw tag count
exceeds twice the primary raw tag count. -/
theorem C5_role_weighting (raw : String → List String) (i0 i1 n0 n1 : String) (now : ℚ)
    (h0 : i0 ≠ "") (h1 : i1 ≠ "") (hne : i0 ≠ i1) :
    (alookup ARTIST_WEIGHTS "primary" = some 1
      ∧ alookup ARTIST_WEIGHTS "featured" = some (1/2))
    ∧ cSum (weighted_genres_for_track raw ⟨[⟨some i0, n0⟩, ⟨some i1, n1⟩]⟩ [] now).1 =
        1 * ((raw i0).length : ℚ) + (1/2) * ((raw i1).length : ℚ)
    ∧ ((1/2 : ℚ) * ((raw i1).length : ℚ) > 1 * ((raw i0).length : ℚ) ↔
        (raw i1).length > 2 * (raw i0).length) := by
  have hid0 : idOf ⟨some i0, n0⟩ = some i0 := by simp [idOf, h0]
  have hid1 : idOf ⟨some i1, n1⟩ = some i1 := by simp [idOf, h1]
  have hne' : ¬ i0 = i1 := hne
  have hne'' : ¬ i1 = i0 := fun hx => hne hx.symm
  have httl : ¬ (now - now > CACHE_TTL) := by
    rw [sub_self, CACHE_TTL]
    norm_num
  have hpf : ¬ ("primary" : String) = "featured" := by decide
  refine ⟨⟨by with_unfolding_all rfl, by with_unfolding_all rfl⟩, ?_, ?_⟩
  · have hres : (weighted_genres_for_track raw ⟨[⟨some i0, n0⟩, ⟨some i1, n1⟩]⟩ [] now).1 =
        sortScores (((raw i1).map normalize_genre).foldl (fun c g => cAdd c g (1/2))
          (((raw i0).map normalize_genre).foldl (fun c g => cAdd c g 1) [])) := by
      simp only [weighted_genres_for_track, missingPass, fetchPass, get_genres_for_artist_ids,
        scorePass, List.filterMap_cons, hid0, hid1, List.filterMap_nil, List.foldl_cons,
        List.foldl_nil, cache_get, cache_put, alookup, List.map_cons, List.map_nil,
        List.enum, List.enumFrom, idOf, h0, h1, hne', hne'', httl, ARTIST_WEIGHTS,
        if_false, ite_false, ite_true, CacheEnt.timed.injEq, Option.getD_some]
      norm_num [cache_get, cache_put, alookup, hne', hne'', httl, CACHE_TTL, hpf]
    rw [hres, cSum_sortScores, cSum_foldl_cAdd, cSum_foldl_cAdd]
    simp only [cSum, List.map_nil, List.sum_nil, List.length_map]
    ring
  · constructor
    · intro hgt
      have hq : ((raw i1).length : ℚ) > 2 * ((raw i0).length : ℚ) := by linarith
      exact_mod_cast hq
    · intro hgt
      have hq : ((raw i1).length : ℚ) > 2 * ((raw i0).length : ℚ) := by exact_mod_cast hgt
      linarith

/-- Witness for C5, discharging its hypotheses at concrete ids and a
concrete oracle. -/
theorem C5_witness :
    (alookup ARTIST_WEIGHTS "primary" = some 1
      ∧ alookup ARTIST_WEIGHTS "featured" = some (1/2))
    ∧ cSum (weighted_genres_for_track (fun a => if a = "p" then ["trap"] else ["classical", "opera", "piano"])
          ⟨[⟨some "p", "P"⟩, ⟨some "f", "F"⟩]⟩ [] 500).1 =
        1 * (1 : ℚ) + (1/2) * (3 : ℚ)
    ∧ ((1/2 : ℚ) * (3 : ℚ) > 1 * (1 : ℚ) ↔ 3 > 2 * 1) := by
  have h := C5_role_weighting
    (fun a => if a = "p" then ["trap"] else ["classical", "opera", "piano"])
    "p" "f" "P" "F" 500 (by decide) (by decide) (by decide)
  simpa using h

/-! ### C6: cache-store semantics -/

theorem alookup_cache_put (c : List (String × CacheEnt)) (aid : String) (g : List String)
    (now : ℚ) : alookup (cache_put c aid g now) aid = some (.timed g now) := by
  induction c with
  | nil => simp [cache_put, alookup]
  | cons hd tl ih =>
    obtain ⟨k, v⟩ := hd
    by_cases h : k = aid
    · subst h
      simp [cache_put, alookup]
    · simp [cache_put, alookup, h, ih]

/-- C6 (amended, proved): over the documented persistence format of the
cache (legacy raw tag list, or timestamped object), `cache_get` returns
MISS exactly when no entry exists, when the entry is a legacy list, or
when the timed entry's age exceeds the 14-day TTL; a *non-empty* legacy
entry is additionally rewritten in place through `cache_put` — i.e. into
the current timestamped shape with the legacy tags preserved — while
still signalling MISS (an empty legacy list is Python-falsy and is left
untouched); a fresh entry is a hit returning the stored tags unchanged;
and an entry put at time `T` is a miss when queried at
`T + CACHE_TTL + 1` and a hit with unchanged tags at
`T + CACHE_TTL - 1`. -/
theorem C6_cache_semantics (c : List (String × CacheEnt)) (aid : String) (now : ℚ) :
    ((cache_get c aid now).1 = none ↔
      alookup c aid = none
      ∨ (∃ g, alookup c aid = some (.legacy g))
      ∨ (∃ g ts, alookup c aid = some (.timed g ts) ∧ now - ts > CACHE_TTL))
    ∧ (∀ g : List String, alookup c aid = some (.legacy g) → g ≠ [] →
        (cache_get c aid now).2 = cache_put c aid g now)
    ∧ (∀ (g : List String) (ts : ℚ), alookup c aid = some (.timed g ts) →
        ¬ (now - ts > CACHE_TTL) → (cache_get c aid now).1 = some g)
    ∧ (∀ (g : List String) (T : ℚ),
        (cache_get (cache_put c aid g T) aid (T + CACHE_TTL + 1)).1 = none)
    ∧ (∀ (g : List String) (T : ℚ),
        (cache_get (cache_put c aid g T) aid (T + CACHE_TTL - 1)).1 = some g) := by
  refine ⟨?_, ?_, ?_, ?_, ?_⟩
  · rcases hl : alookup c aid with _ | ent
    · simp [cache_get, hl]
    · rcases ent with ⟨g⟩ | ⟨g, ts⟩
      · rcases g with _ | ⟨x, xs⟩
        · simp [cache_get, hl]
        · simp [cache_get, hl]
      · by_cases ht : now - ts > CACHE_TTL
        · have hts : now - ts ≤ CACHE_TTL → False := fun hle => absurd ht (not_lt.mpr hle)
          simp [cache_get, hl, ht]
          exact ⟨g, ts, ⟨rfl, rfl⟩, ht⟩
        · have hts : now - ts ≤ CACHE_TTL := not_lt.mp ht
          simp [cache_get, hl, ht]
          linarith
  · intro g hl hg
    have hge : g.isEmpty = false := by
      rcases g with _ | ⟨x, xs⟩
      · exact absurd rfl hg
      · rfl
    simp [cache_get, hl, hge]
  · intro g ts hl ht
    simp [cache_get, hl, ht]
  · intro g T
    have hput := alookup_cache_put c aid g T
    have harith : T + CACHE_TTL + 1 - T > CACHE_TTL := by linarith
    simp [cache_get, hput, harith]
  · intro g T
    have hput := alookup_cache_put c aid g T
    have harith : ¬ (T + CACHE_TTL - 1 - T > CACHE_TTL) := by
      simp only [gt_iff_lt, not_lt]
      linarith
    simp [cache_get, hput, harith]

/-- Witness for C6, discharging its hypotheses at a concrete cache: a
non-empty legacy entry is rewritten through `cache_put` on `get`. -/
theorem C6_witness :
    (cache_get [("a", CacheEnt.legacy ["rock"])] "a" 100).2 =
      cache_put [("a", CacheEnt.legacy ["rock"])] "a" ["rock"] 100 :=
  (C6_cache_semantics [("a", CacheEnt.legacy ["rock"])] "a" 100).2.1 ["rock"]
    (by decide) (by decide)

/-! ### C4 (amended): classifier-level generic-tag invariance -/

theorem generic_not_in_canon (g : String) (hg : g ∈ GENERIC_TAGS) :
    alookup CANON_TO_BUCKET g = none := by
  fin_cases hg <;> decide

/-- C4 (amended, proved): the classifier itself never reacts to generic
tags — inserting a tag from `GENERIC_TAGS` anywhere in the weighted tag
list, at any weight, leaves `bucketize_scored`'s chosen bucket
unchanged, because no generic tag has a canonical-table entry.  (The
original end-to-end claim is falsified by `C4_counterexample`: upstream
of the classifier a generic tag makes tier-1 evidence non-empty and
suppresses fallback escalation, which can change the final bucket.) -/
theorem C4_generic_classifier_invariant (l1 l2 : List (String × ℚ)) (g : String) (w : ℚ)
    (hg : g ∈ GENERIC_TAGS) :
    bucketize_scored (l1 ++ (g, w) :: l2) = bucketize_scored (l1 ++ l2) := by
  have hnone := generic_not_in_canon g hg
  have hstep : ∀ X : List (String × ℚ), bsStep X (g, w) = X := by
    intro X
    simp [bsStep, hnone]
  have hbs : bucketScores (l1 ++ (g, w) :: l2) = bucketScores (l1 ++ l2) := by
    rw [bucketScores_eq_foldl, bucketScores_eq_foldl, List.foldl_append, List.foldl_append,
      List.foldl_cons, hstep]
  unfold bucketize_scored
  rw [hbs]

/-- Witness for C4's amended theorem at a concrete insertion. -/
theorem C4_witness :
    bucketize_scored ([("trap", 1)] ++ ("seen live", 5) :: [("classical", 2)]) =
      bucketize_scored ([("trap", 1)] ++ [("classical", 2)]) :=
  C4_generic_classifier_invariant [("trap", 1)] [("classical", 2)] "seen live" 5 (by decide)

/-! ### C10 (amended): the legacy bucketizer's fallback -/

theorem scanRules_eq_none (rules : List (String × List String)) (gset : List String)
    (h : ∀ g ∈ gset, ∀ r ∈ rules, ∀ n ∈ r.2, substrOf n.data g.data = false) :
    scanRules rules gset = none := by
  induction rules with
  | nil => rfl
  | cons r rs ih =>
    obtain ⟨b, needles⟩ := r
    have hany : (gset.any (fun g => needles.any (fun n => substrOf n.data g.data))) = false := by
      rw [List.any_eq_false]
      intro g hgm
      rw [Bool.not_eq_true, List.any_eq_false]
      intro n hn
      rw [Bool.not_eq_true]
      exact h g hgm (b, needles) (List.mem_cons_self _ _) n hn
    simp only [scanRules, hany, Bool.false_eq_true, if_false]
    exact ih (fun g hg r hr n hn => h g hg r (List.mem_cons_of_mem _ hr) n hn)

theorem scanRules_some_mem (rules : List (String × List String)) (gset : List String)
    (b : String) (h : scanRules rules gset = some b) : b ∈ rules.map Prod.fst := by
  induction rules with
  | nil => cases h
  | cons r rs ih =>
    obtain ⟨b', needles⟩ := r
    by_cases hc : (gset.any (fun g => needles.any (fun n => substrOf n.data g.data))) = true
    · simp only [scanRules, hc, if_true] at h
      simp [Option.some_inj.mp h]
    · rw [Bool.not_eq_true] at hc
      simp only [scanRules, hc, Bool.false_eq_true, if_false] at h
      exact List.mem_cons_of_mem _ (ih h)

/-- C10 (amended, proved): if after dropping empty and generic tags at
least one tag remains and no remaining tag contains any rule needle,
`bucketize` returns the first remaining normalized tag itself — a label
that can lie outside the closed bucket set; and `bucketize` returns
`"other"` only when the filtered list is empty *or when the first-tag
fallback itself is the string `"other"`* (see `C10_counterexample` for
the latter case, which falsifies the claim's "only when the filtered
list is empty"). -/
theorem C10_fallback_first_tag (genres : List String) :
    ((∀ g ∈ gsetOf genres, ∀ r ∈ DEFAULT_BUCKET_RULES, ∀ n ∈ r.2,
        substrOf n.data g.data = false) →
      ∀ g0 gs, gsetOf genres = g0 :: gs → bucketize genres = g0)
    ∧ (bucketize genres = "other" →
        gsetOf genres = [] ∨ (gsetOf genres).headD "" = "other") := by
  constructor
  · intro h g0 gs hg
    have hscan : scanRules DEFAULT_BUCKET_RULES (gsetOf genres) = none :=
      scanRules_eq_none _ _ h
    rw [hg] at hscan
    simp [bucketize, hscan, hg]
  · intro h
    rcases hscan : scanRules DEFAULT_BUCKET_RULES (gsetOf genres) with _ | b
    · rcases hg : gsetOf genres with _ | ⟨g0, gs⟩
      · exact Or.inl rfl
      · refine Or.inr ?_
        rw [hg] at hscan
        simp only [bucketize, hscan, hg] at h
        simp [hg, h]
    · exfalso
      have hb : b = "other" := by
        simp only [bucketize, hscan] at h
        exact h
      have hmem := scanRules_some_mem _ _ b hscan
      rw [hb] at hmem
      revert hmem
      decide

/-- Witness for C10's amended theorem: a filtered tag list containing
only the needle-free tag `"weird tag"` makes `bucketize` return
`"weird tag"` itself. -/
theorem C10_witness : bucketize ["weird tag"] = "weird tag" :=
  (C10_fallback_first_tag ["weird tag"]).1 (by decide) "weird tag" [] (by decide)

/-! ### C8 (amended): normalization of inputs with substance -/

theorem alookup_mem {α : Type} (l : List (String × α)) (k : String) (v : α)
    (h : alookup l k = some v) : (k, v) ∈ l := by
  induction l with
  | nil => cases h
  | cons hd tl ih =>
    obtain ⟨k', v'⟩ := hd
    by_cases hk : k' = k
    · subst hk
      have he : alookup ((k', v') :: tl) k' = some v' := by simp [alookup]
      rw [he, Option.some_inj] at h
      subst h
      exact List.mem_cons_self _ _
    · simp only [alookup, if_neg hk] at h
      exact List.mem_cons_of_mem _ (ih h)

theorem mem_dropWhile (p : Char → Bool) (l : List Char) (c : Char) (hc : c ∈ l)
    (hp : p c = false) : c ∈ l.dropWhile p := by
  induction l with
  | nil => cases hc
  | cons a l ih =>
    by_cases ha : p a
    · rw [List.dropWhile_cons, if_pos ha]
      rcases List.mem_cons.mp hc with h | h
      · subst h
        rw [hp] at ha
        cases ha
      · exact ih h
    · rw [List.dropWhile_cons, if_neg ha]
      exact hc

theorem collapseAux_false_ne_nil (l : List Char) (h : l ≠ []) : collapseAux false l ≠ [] := by
  rcases l with _ | ⟨c, r⟩
  · exact absurd rfl h
  · by_cases hc : pyIsSpace c <;> simp [collapseAux, hc]

/-- C8 (amended, proved): normalization is total (the embedding is a
function) and returns a non-empty string for every input containing at
least one non-whitespace character.  (The claim's "non-empty input"
version is falsified by `C8_counterexample`: the whitespace-only input
`" "` normalizes to `""`.) -/
theorem C8_normalize_nonempty (x : String)
    (h : ∃ c ∈ x.data, pyIsSpace c = false) : normalize_genre x ≠ "" := by
  obtain ⟨c, hc, hcs⟩ := h
  have h1 : c ∈ x.data.dropWhile pyIsSpace := mem_dropWhile _ _ _ hc hcs
  have h2 : c ∈ (x.data.dropWhile pyIsSpace).reverse := List.mem_reverse.mpr h1
  have h3 : c ∈ (x.data.dropWhile pyIsSpace).reverse.dropWhile pyIsSpace :=
    mem_dropWhile _ _ _ h2 hcs
  have h4 : c ∈ pyStrip x.data := List.mem_reverse.mpr h3
  have h5 : pyStrip x.data ≠ [] := List.ne_nil_of_mem h4
  have h6 : replaceSl (lowerL (pyStrip x.data)) ≠ [] := by
    intro he
    apply h5
    have hlen := congrArg List.length he
    simp only [replaceSl, lowerL, List.length_map, List.length_nil] at hlen
    exact List.eq_nil_of_length_eq_zero hlen
  have h7 : (norm x).data ≠ [] := by
    simpa [norm] using collapseAux_false_ne_nil _ h6
  unfold normalize_genre
  show (alookup replacements (norm x)).getD (norm x) ≠ ""
  rcases hr : alookup replacements (norm x) with _ | v
  · simp only [Option.getD_none]
    intro he
    apply h7
    rw [he]
  · simp only [Option.getD_some]
    have hv : (norm x, v) ∈ replacements := alookup_mem _ _ _ hr
    have hvs : ∀ p ∈ replacements, p.2 ≠ ("" : String) := by decide
    exact hvs _ hv

/-- Witness for C8's amended theorem at a concrete input. -/
theorem C8_witness : normalize_genre "Hip Hop" ≠ "" :=
  C8_normalize_nonempty "Hip Hop" ⟨'H', by decide, by decide⟩

/-! ### C7 (amended): idempotence of normalization on edge-clean inputs -/

theorem toLower_eq_self_of_not_upper (c : Char) (h : ¬ (c.toNat ≥ 65 ∧ c.toNat ≤ 90)) :
    c.toLower = c := by
  show (if c.toNat ≥ 65 ∧ c.toNat ≤ 90 then Char.ofNat (c.toNat + 32) else c) = c
  rw [if_neg h]

theorem toLower_toLower (c : Char) : c.toLower.toLower = c.toLower := by
  by_cases h : c.toNat ≥ 65 ∧ c.toNat ≤ 90
  · have h1 : c.toLower = Char.ofNat (c.toNat + 32) := by
      show (if c.toNat ≥ 65 ∧ c.toNat ≤ 90 then Char.ofNat (c.toNat + 32) else c) = _
      rw [if_pos h]
    have hv : (c.toNat + 32).isValidChar := Or.inl (by omega)
    have ht : (Char.ofNat (c.toNat + 32)).toNat = c.toNat + 32 := by
      unfold Char.ofNat
      rw [dif_pos hv]
      rfl
    rw [h1]
    apply toLower_eq_self_of_not_upper
    rw [ht]
    omega
  · rw [toLower_eq_self_of_not_upper c h, toLower_eq_self_of_not_upper c h]

theorem map_eq_self_of_fix {α : Type} (f : α → α) (l : List α) (h : ∀ c ∈ l, f c = c) :
    l.map f = l := by
  induction l with
  | nil => rfl
  | cons a r ih =>
    rw [List.map_cons, h a (List.mem_cons_self _ _), ih (fun c hc => h c (List.mem_cons_of_mem _ hc))]

theorem mem_collapseAux (l : List Char) : ∀ (b : Bool) (c : Char),
    c ∈ collapseAux b l → c = ' ' ∨ c ∈ l := by
  induction l with
  | nil => intro b c hc; cases hc
  | cons a r ih =>
    intro b c hc
    by_cases ha : pyIsSpace a
    · cases b with
      | true =>
        simp only [collapseAux, ha, if_true, ite_true] at hc
        rcases ih true c hc with h | h
        · exact Or.inl h
        · exact Or.inr (List.mem_cons_of_mem _ h)
      | false =>
        simp only [collapseAux, ha, if_true, ite_true, ite_false] at hc
        rcases List.mem_cons.mp hc with h | h
        · exact Or.inl h
        · rcases ih true c h with h2 | h2
          · exact Or.inl h2
          · exact Or.inr (List.mem_cons_of_mem _ h2)
    · simp only [collapseAux, ha, Bool.false_eq_true, if_false, ite_false] at hc
      rcases List.mem_cons.mp hc with h | h
      · exact Or.inr (h ▸ List.mem_cons_self _ _)
      · rcases ih false c h with h2 | h2
        · exact Or.inl h2
        · exact Or.inr (List.mem_cons_of_mem _ h2)

theorem collapseAux_fix (l : List Char) : ∀ b : Bool, noSpaceRun b l = true →
    collapseAux b l = l := by
  induction l with
  | nil => intro b _; rfl
  | cons c r ih =>
    intro b h
    by_cases hc : pyIsSpace c
    · simp only [noSpaceRun, hc, if_true, ite_true, Bool.and_eq_true, Bool.not_eq_true',
        decide_eq_true_eq] at h
      obtain ⟨⟨hsp, hb⟩, hrest⟩ := h
      subst hb
      simp only [collapseAux, hc, if_true, ite_true, Bool.false_eq_true, if_false, ite_false]
      rw [ih true hrest, hsp]
    · simp only [noSpaceRun, hc, Bool.false_eq_true, if_false, ite_false] at h
      simp only [collapseAux, hc, Bool.false_eq_true, if_false, ite_false]
      rw [ih false h]

theorem noSpaceRun_collapseAux (l : List Char) : ∀ b : Bool,
    noSpaceRun b (collapseAux b l) = true := by
  induction l with
  | nil => intro b; rfl
  | cons c r ih =>
    intro b
    by_cases hc : pyIsSpace c
    · cases b with
      | true =>
        simp only [collapseAux, hc, if_true, ite_true]
        exact ih true
      | false =>
        simp only [collapseAux, hc, if_true, ite_true, ite_false]
        have hrec := ih true
        simp [noSpaceRun, pyIsSpace, hrec]
    · simp only [collapseAux, hc, Bool.false_eq_true, if_false, ite_false, noSpaceRun]
      exact ih false

theorem getLastD_irrel {α : Type} (l : List α) (h : l ≠ []) (d1 d2 : α) :
    l.getLastD d1 = l.getLastD d2 := by
  rcases l with _ | ⟨a, r⟩
  · exact absurd rfl h
  · rw [List.getLastD_cons, List.getLastD_cons]

theorem headD_reverse (l : List Char) (d : Char) : l.reverse.headD d = l.getLastD d := by
  induction l generalizing d with
  | nil => rfl
  | cons a r ih =>
    rw [List.reverse_cons, List.getLastD_cons]
    rcases hr : r.reverse with _ | ⟨b, s⟩
    · have hrn : r = [] := by simpa using congrArg List.reverse hr
      subst hrn
      simp
    · rw [← ih a, hr]
      simp

theorem collapseAux_last (r : List Char) : ∀ b : Bool, r ≠ [] →
    pyIsSpace (r.getLastD ' ') = false →
    collapseAux b r ≠ [] ∧ pyIsSpace ((collapseAux b r).getLastD ' ') = false := by
  induction r with
  | nil => intro b h _; exact absurd rfl h
  | cons c r ih =>
    intro b _ hlast
    by_cases hr : r = []
    · subst hr
      have hc : pyIsSpace c = false := by
        simpa [List.getLastD_cons] using hlast
      simp [collapseAux, hc, List.getLastD_cons]
    · have hlast' : pyIsSpace (r.getLastD ' ') = false := by
        rw [List.getLastD_cons] at hlast
        rwa [getLastD_irrel r hr c ' '] at hlast
      by_cases hc : pyIsSpace c
      · cases b with
        | true =>
          simp only [collapseAux, hc, if_true, ite_true]
          exact ih true hr hlast'
        | false =>
          obtain ⟨o1, o2⟩ := ih true hr hlast'
          simp only [collapseAux, hc, if_true, ite_true, Bool.false_eq_true, if_false, ite_false]
          refine ⟨by simp, ?_⟩
          rw [List.getLastD_cons]
          exact o2
      · obtain ⟨o1, o2⟩ := ih false hr hlast'
        simp only [collapseAux, hc, Bool.false_eq_true, if_false, ite_false]
        refine ⟨by simp, ?_⟩
        rw [List.getLastD_cons, getLastD_irrel _ o1 c ' ']
        exact o2

theorem pyStrip_fix (l : List Char)
    (h : l = [] ∨ (pyIsSpace (l.headD ' ') = false ∧ pyIsSpace (l.getLastD ' ') = false)) :
    pyStrip l = l := by
  rcases h with h | ⟨h1, h2⟩
  · subst h
    rfl
  · rcases l with _ | ⟨c, r⟩
    · rfl
    · have hc : pyIsSpace c = false := by simpa using h1
      have hd1 : (c :: r).dropWhile pyIsSpace = c :: r := by
        rw [List.dropWhile_cons, hc]
        simp
      unfold pyStrip
      rw [hd1]
      have hrev : pyIsSpace ((c :: r).reverse.headD ' ') = false := by
        rw [headD_reverse]
        exact h2
      rcases hv : (c :: r).reverse with _ | ⟨d, s⟩
      · exact absurd (congrArg List.length hv) (by simp)
      · rw [hv] at hrev
        have hd : pyIsSpace d = false := by simpa using hrev
        have hd2 : (d :: s).dropWhile pyIsSpace = d :: s := by
          rw [List.dropWhile_cons, hd]
          simp
        rw [hd2, ← hv, List.reverse_reverse]

theorem norm_data (x : String) :
    (norm x).data = collapseAux false (replaceSl (lowerL (pyStrip x.data))) := rfl

theorem norm_fix_of_edge (x : String) (h : edgeSpaceFree (norm x) = true) :
    norm (norm x) = norm x := by
  have hchar : ∀ c ∈ (norm x).data, Char.toLower c = c ∧ isSlashU c = false := by
    intro c hcy
    rw [norm_data] at hcy
    rcases mem_collapseAux _ false c hcy with hsp | hz
    · subst hsp
      exact ⟨by decide, by decide⟩
    · obtain ⟨a, ha, hfa⟩ := List.mem_map.mp hz
      obtain ⟨a0, ha0, hla⟩ := List.mem_map.mp ha
      by_cases hs : isSlashU a
      · rw [if_pos hs] at hfa
        subst hfa
        exact ⟨by decide, by decide⟩
      · rw [if_neg hs] at hfa
        subst hfa
        subst hla
        exact ⟨toLower_toLower a0, by simpa using hs⟩
  have hlow : lowerL (norm x).data = (norm x).data :=
    map_eq_self_of_fix _ _ (fun c hc => (hchar c hc).1)
  have hrep : replaceSl (norm x).data = (norm x).data :=
    map_eq_self_of_fix _ _ (fun c hc => by simp [(hchar c hc).2])
  have hcol : collapseAux false (norm x).data = (norm x).data := by
    rw [norm_data]
    exact collapseAux_fix _ false (noSpaceRun_collapseAux _ false)
  have hstrip : pyStrip (norm x).data = (norm x).data := by
    apply pyStrip_fix
    unfold edgeSpaceFree at h
    rcases hnd : (norm x).data with _ | ⟨c, r⟩
    · exact Or.inl rfl
    · rw [hnd] at h
      simp only [Bool.and_eq_true, Bool.not_eq_true'] at h
      exact Or.inr ⟨by simpa using h.1, by simpa using h.2⟩
  show String.mk (collapseAux false (replaceSl (lowerL (pyStrip (norm x).data)))) = norm x
  rw [hstrip, hlow, hrep, hcol]

/-- C7 (amended, proved): tag normalization is idempotent on every
input whose normalized form carries no leading or trailing space —
equivalently, on every input whose stripped form does not begin or end
with `/` or `_`.  (Full idempotence is falsified by
`C7_counterexample`: `"rock/"` normalizes to `"rock "`, which a second
pass shrinks to `"rock"`.) -/
theorem C7_normalize_idempotent_amended (x : String) (h : edgeSpaceFree (norm x) = true) :
    normalize_genre (normalize_genre x) = normalize_genre x := by
  have hval : ∀ p ∈ replacements, normalize_genre p.2 = p.2 := by decide
  rcases hr : alookup replacements (norm x) with _ | v
  · have hx : normalize_genre x = norm x := by
      unfold normalize_genre
      show (alookup replacements (norm x)).getD (norm x) = norm x
      rw [hr]
      rfl
    rw [hx]
    have hnn := norm_fix_of_edge x h
    unfold normalize_genre
    show (alookup replacements (norm (norm x))).getD (norm (norm x)) = norm x
    rw [hnn, hr]
    rfl
  · have hx : normalize_genre x = v := by
      unfold normalize_genre
      show (alookup replacements (norm x)).getD (norm x) = v
      rw [hr]
      rfl
    rw [hx]
    exact hval (norm x, v) (alookup_mem _ _ _ hr)

/-- Witness for C7's amended theorem: `"Hip Hop"` normalizes to an
edge-clean string and a second normalization is a no-op. -/
theorem C7_witness :
    normalize_genre (normalize_genre "Hip Hop") = normalize_genre "Hip Hop" :=
  C7_normalize_idempotent_amended "Hip Hop" (by decide)

end SpotifyGenre
